import Mathlib

/-!
Verification development for the moder-telegram repository.

Part 1: the Classifier (src/moder_telegram/moderation.py).
We embed the compiled regular-expression matcher as an AST `Regex` with an
executable position-based matching function that models the semantics of
Python's `re` module (always with `re.IGNORECASE`, as the source compiles
every pattern with that flag):
  - `$` matches at the end of the text or just before a trailing newline;
  - `^` matches only at position 0 (no MULTILINE);
  - `\b` matches at a word/non-word boundary, `\w` being alphanumeric or `_`;
  - `\d` matches a decimal digit; `.` matches any character except newline.
Texts are `List Char`.  The model covers the ASCII fragment of the Unicode
semantics, which is all the source's patterns and the spec's examples use.
-/

/-- Remove duplicate naturals, keeping the last occurrence of each. -/
def dedupN : List Nat → List Nat
  | [] => []
  | x :: xs => if x ∈ xs then dedupN xs else x :: dedupN xs

/-- Iterate a function on lists of positions a fixed number of times. -/
def iterN (f : List Nat → List Nat) : Nat → List Nat → List Nat
  | 0, x => x
  | n + 1, x => iterN f n (f x)

/-- Abstract syntax of the regular-expression fragment the source emits. -/
inductive Regex where
  | eps : Regex
  | lit : Char → Regex
  | digitC : Regex
  | dot : Regex
  | seq : Regex → Regex → Regex
  | alt : Regex → Regex → Regex
  | star : Regex → Regex
  | bol : Regex
  | eol : Regex
  | wordB : Regex
deriving DecidableEq

/-- Python's `\w` over ASCII: alphanumeric or underscore. -/
def isWordChar (c : Char) : Bool := c.isAlphanum || c = '_'

/-- Whether the character at position `i` of the text is a word character. -/
def wordAt (full : List Char) (i : Nat) : Bool :=
  match full.get? i with
  | some c => isWordChar c
  | none => false

/-- Python's `\b`: position `i` is a boundary iff exactly one side is a word
character (positions outside the text count as non-word). -/
def isBoundary (full : List Char) (i : Nat) : Bool :=
  match i with
  | 0 => wordAt full 0
  | j + 1 => wordAt full j != wordAt full (j + 1)

/-- Python's `$` without MULTILINE: end of text, or just before a newline that
is the last character. -/
def atEol (full : List Char) (i : Nat) : Bool :=
  if i = full.length then true
  else if i + 1 = full.length ∧ full.get? i = some '\n' then true
  else false

/-- All end positions `j` such that the regex matches the slice of `full`
from position `i` to `j`.  Zero-width assertions consult the whole text.
Literal characters compare case-insensitively, modelling `re.IGNORECASE`
(the source compiles every pattern with that flag). -/
def matchEnds (full : List Char) : Regex → Nat → List Nat
  | .eps, i => [i]
  | .lit c, i =>
    match full.get? i with
    | some d => if d.toLower = c.toLower then [i + 1] else []
    | none => []
  | .digitC, i =>
    match full.get? i with
    | some d => if d.isDigit then [i + 1] else []
    | none => []
  | .dot, i =>
    match full.get? i with
    | some d => if d = '\n' then [] else [i + 1]
    | none => []
  | .seq r1 r2, i =>
    dedupN (((matchEnds full r1 i).map (matchEnds full r2)).flatten)
  | .alt r1 r2, i =>
    dedupN (matchEnds full r1 i ++ matchEnds full r2 i)
  | .star r, i =>
    iterN (fun acc => dedupN (acc ++ (acc.map (matchEnds full r)).flatten))
      (full.length + 1) [i]
  | .bol, i => if i = 0 then [i] else []
  | .eol, i => if atEol full i then [i] else []
  | .wordB, i => if isBoundary full i then [i] else []

/-- Whether the regex matches starting exactly at position `i`. -/
def hasMatchAt (s : List Char) (r : Regex) (i : Nat) : Bool :=
  match matchEnds s r i with
  | [] => false
  | _ :: _ => true

/-- `re.Pattern.search`: the regex matches somewhere in the text. -/
def research (r : Regex) (s : List Char) : Bool :=
  (List.range (s.length + 1)).any (hasMatchAt s r)

/-- Convenience: view a Lean string literal as the text character list. -/
def str (s : String) : List Char := s.toList

/-!
Parsing of the pattern string.  The source builds one pattern string from
all entries and hands it to `re.compile`; we model the parsing step of
`re.compile` on the fragment of Python regex syntax covered by `Regex`:
literal characters, escapes (`\d`, `\b`, an escaped punctuation character,
or a trailing or unknown-letter escape which is an error), `.`, `^`, `$`,
alternation `|`, grouping `(...)` and `(?:...)`, and the quantifiers `*`,
`+`, `?` with an optional lazy `?` suffix.  On this fragment the parser
agrees with `re.compile`, including its recombination behaviour: the
fragments of the joined pattern are parsed in one pass, so unbalanced
parentheses in one fragment can regroup with the wrappers of another.
Constructs outside the fragment (character classes, counted repeats, other
`(?` extensions, unknown letter escapes) are rejected by the model even
where `re.compile` would accept them, so the development never asserts a
compile failure for the program beyond concrete inputs inside the
fragment.
-/

/-- Meaning of a single escape character after a backslash. -/
def parseEsc (c : Char) : Except String Regex :=
  if c = 'd' then .ok .digitC
  else if c = 'b' then .ok .wordB
  else if c.isAlphanum then .error "bad escape"
  else .ok (.lit c)

/-- Whether a character is a quantifier. -/
def isQuantChar (c : Char) : Bool := c = '*' || c = '+' || c = '?'

/-- Whether a character ends a concatenation: `)` and `|`. -/
def isStopChar (c : Char) : Bool := c = ')' || c = '|'

/-- The regex a quantifier character applies to an atom. -/
def quantOf (r : Regex) (c : Char) : Regex :=
  if c = '*' then .star r
  else if c = '+' then .seq r (.star r)
  else .alt r .eps

/-- After a lazy `?` suffix: a further quantifier is an error. -/
def afterLazy (r2 : Regex) : List Char → Except String (Regex × List Char)
  | [] => .ok (r2, [])
  | c3 :: rest3 =>
    if isQuantChar c3 then .error "multiple repeat" else .ok (r2, c3 :: rest3)

/-- After one quantifier: an optional lazy `?` suffix is consumed, a second
quantifier is an error (Python: multiple repeat). -/
def afterQuant (r2 : Regex) : List Char → Except String (Regex × List Char)
  | [] => .ok (r2, [])
  | c2 :: rest2 =>
    if c2 = '?' then afterLazy r2 rest2
    else if isQuantChar c2 then .error "multiple repeat"
    else .ok (r2, c2 :: rest2)

/-- Apply at most one quantifier (with optional lazy `?` suffix) to an
atom.  Python rejects a quantifier applied directly to a quantified atom. -/
def applyQuant (r : Regex) : List Char → Except String (Regex × List Char)
  | [] => .ok (r, [])
  | c :: rest =>
    if isQuantChar c then afterQuant (quantOf r c) rest else .ok (r, c :: rest)

/-- Recursive-descent modes: alternation, concatenation, single atom. -/
inductive PMode where
  | palt : PMode
  | pcat : PMode
  | patom : PMode

/-- After `(?`, expect `:` (a non-capturing group); other `(?` extensions
are unsupported. -/
def groupBodyQ : List Char → Except String (List Char)
  | [] => .error "unsupported group"
  | c3 :: rest3 => if c3 = ':' then .ok rest3 else .error "unsupported group"

/-- After `(`, select the group body: `?:` is skipped (non-capturing), a
bare body is a capturing group (same language), other `(?` extensions are
unsupported. -/
def groupBody : List Char → Except String (List Char)
  | [] => .ok []
  | c2 :: rest2 => if c2 = '?' then groupBodyQ rest2 else .ok (c2 :: rest2)

/-- Consume a closing `)` in front of the remainder `rest3`. -/
def closeGroupStep (r : Regex) : List Char → Except String (Regex × List Char)
  | [] => .error "missing right paren"
  | c4 :: rest4 => if c4 = ')' then .ok (r, rest4) else .error "missing right paren"

/-- Consume the closing `)` after a group body has been parsed. -/
def closeGroup (x : Except String (Regex × List Char)) : Except String (Regex × List Char) :=
  match x with
  | .error e => .error e
  | .ok (r, rest3) => closeGroupStep r rest3

/-- Fold one alternative into an already-parsed left alternative. -/
def barCont (r : Regex) (x : Except String (Regex × List Char)) :
    Except String (Regex × List Char) :=
  match x with
  | .error e => .error e
  | .ok (r2, rest3) => .ok (.alt r r2, rest3)

/-- Continuation of an alternation parse after its first concatenation
`r`: stop at end of input, fold a `|` by parsing the rest with `k`, and
leave any other character (a `)`) unconsumed. -/
def postAltStep (r : Regex) (k : List Char → Except String (Regex × List Char)) :
    List Char → Except String (Regex × List Char)
  | [] => .ok (r, [])
  | c :: rest2 => if c = '|' then barCont r (k rest2) else .ok (r, c :: rest2)

/-- Dispatch `postAltStep` on the result of the first concatenation. -/
def postAlt (first : Except String (Regex × List Char))
    (k : List Char → Except String (Regex × List Char)) :
    Except String (Regex × List Char) :=
  match first with
  | .error e => .error e
  | .ok (r, rest) => postAltStep r k rest

/-- Prefix a parsed concatenation tail with an already-parsed atom. -/
def seqCont (r2 : Regex) (x : Except String (Regex × List Char)) :
    Except String (Regex × List Char) :=
  match x with
  | .error e => .error e
  | .ok (r3, rest3) => .ok (.seq r2 r3, rest3)

/-- After quantifying the atom, parse the remaining concatenation with `k`. -/
def quantCont (k : List Char → Except String (Regex × List Char))
    (x : Except String (Regex × List Char)) :
    Except String (Regex × List Char) :=
  match x with
  | .error e => .error e
  | .ok (r2, rest2) => seqCont r2 (k rest2)

/-- Continuation of a concatenation parse after its first atom: apply an
optional quantifier, then parse the remaining concatenation with `k`. -/
def postCat (atom : Except String (Regex × List Char))
    (k : List Char → Except String (Regex × List Char)) :
    Except String (Regex × List Char) :=
  match atom with
  | .error e => .error e
  | .ok (r, rest) => quantCont k (applyQuant r rest)

/-- Parse a group: select the body, parse it as an alternation with `k`,
and consume the closing parenthesis. -/
def overGroup (g : Except String (List Char))
    (k : List Char → Except String (Regex × List Char)) :
    Except String (Regex × List Char) :=
  match g with
  | .error e => .error e
  | .ok body => closeGroup (k body)

/-- Parse the character after a backslash as an escape atom. -/
def escAtom : List Char → Except String (Regex × List Char)
  | [] => .error "bad escape end"
  | c2 :: rest2 =>
    match parseEsc c2 with
    | .error e => .error e
    | .ok r => .ok (r, rest2)

/-- Fuel-indexed recursive-descent parsing.  Returns the parsed regex and
the unconsumed remainder of the input. -/
def parseRun : Nat → PMode → List Char → Except String (Regex × List Char)
  | 0, _, _ => .error "depth"
  | f + 1, .palt, s =>
    postAlt (parseRun f .pcat s) (parseRun f .palt)
  | f + 1, .pcat, s =>
    match s with
    | [] => .ok (.eps, [])
    | c :: rest0 =>
      if isStopChar c then .ok (.eps, c :: rest0)
      else postCat (parseRun f .patom (c :: rest0)) (parseRun f .pcat)
  | f + 1, .patom, s =>
    match s with
    | [] => .error "empty atom"
    | c :: rest =>
      if c = '(' then overGroup (groupBody rest) (parseRun f .palt)
      else if c = ')' then .error "unmatched right paren"
      else if c = '\\' then escAtom rest
      else if c = '.' then .ok (.dot, rest)
      else if c = '^' then .ok (.bol, rest)
      else if c = '$' then .ok (.eol, rest)
      else if c = '[' then .error "unsupported class"
      else if c = '\x7b' then .error "unsupported repeat"
      else if isQuantChar c then .error "nothing to repeat"
      else .ok (.lit c, rest)

/-- Parse a whole pattern string; leftover input means an unbalanced `)`. -/
def parseRegex (s : List Char) : Except String Regex :=
  match parseRun (8 * s.length + 16) .palt s with
  | .error e => .error e
  | .ok (r, []) => .ok r
  | .ok (_, _ :: _) => .error "unbalanced paren"

/-!
The compiler `_compile_pattern` of src/moder_telegram/moderation.py and the
public classifier `is_bad_message`.  Faithful to the source, the compiler
builds ONE pattern string — each entry contributes a fragment, a raw entry
verbatim inside `(?:...)` and any other entry escaped inside `\b...\b`,
joined with `|` (or the `$^` fallback for an empty list) — and compiles
that single string.
-/

/-- Whether a banned-list entry is marked as a raw pattern: it starts with
the three characters `re:` (the source's `token.startswith("re:")`). -/
def isRawToken : List Char → Bool
  | 'r' :: 'e' :: ':' :: _ => true
  | _ => false

/-- `re.escape` of one character: every character other than an ASCII
letter, digit or underscore is preceded by a backslash. -/
def escapeChar (c : Char) : List Char :=
  if c.isAlphanum || c = '_' then [c] else ['\\', c]

/-- `re.escape(t)`. -/
def reEscape (t : List Char) : List Char := (t.map escapeChar).flatten

/-- The pattern-string fragment one entry contributes: a raw entry becomes
`(?:` body `)` with the marker stripped, any other entry becomes
`\b` escaped-entry `\b`. -/
def tokenPart (t : List Char) : List Char :=
  if isRawToken t then '(' :: '?' :: ':' :: (t.drop 3 ++ [')'])
  else '\\' :: 'b' :: (reEscape t ++ ['\\', 'b'])

/-- The source's `"|".join(parts)`. -/
def joinBar : List (List Char) → List Char
  | [] => []
  | [p] => p
  | p :: ps => p ++ '|' :: joinBar ps

/-- The single pattern string handed to `re.compile`: the joined fragments,
or the fallback `$^` for an empty list. -/
def patternString (banned : List (List Char)) : List Char :=
  match banned with
  | [] => ['$', '^']
  | _ :: _ => joinBar (banned.map tokenPart)

/-- `_compile_pattern(banned)`: `re.compile` of the one joined pattern
string.  Because the string is parsed in one pass, malformed fragments may
recombine into a well-formed whole. -/
def compilePattern (banned : List (List Char)) : Except String Regex :=
  parseRegex (patternString banned)

/-- The module-level default banned list `BANNED_WORDS`. -/
def BANNED_WORDS : List (List Char) := [str "badword", str "spam", str "scam"]

/-- `is_bad_message(text, banned)`: `None` or empty text is immediately not
bad; otherwise the banned list (defaulting to `BANNED_WORDS`) is compiled
and the text searched.  A compile failure propagates as an error. -/
def is_bad_message (text : Option (List Char)) (banned : Option (List (List Char))) :
    Except String Bool :=
  match text with
  | none => .ok false
  | some t =>
    if t = [] then .ok false
    else
      match compilePattern (banned.getD BANNED_WORDS) with
      | .error e => .error e
      | .ok p => .ok (research p t)

/-!
Part 2: the Ledger (src/moder_telegram/storage.py).

The SQLite tables become association lists keyed by `(chat_id, user_id)`
(both Python ints, so Lean `Int`); row order models insertion order.
Timestamps are ISO-8601 UTC strings whose SQLite ordering is their
chronological ordering; we model them as `Nat` clock values supplied by the
caller (the code takes `datetime.now(timezone.utc)` at each mutation).
`INSERT OR REPLACE` removes any row with the key and appends the new row;
`DELETE ... WHERE` filters; `UPDATE ... WHERE` rewrites rows in place;
a keyed `SELECT` returns the first matching row.
-/

/-- SQLite `INSERT OR REPLACE` on a table keyed by `(chat_id, user_id)`. -/
def upsertRow {α : Type} (key : Int × Int) (v : α) :
    List ((Int × Int) × α) → List ((Int × Int) × α)
  | [] => [(key, v)]
  | r :: rs => if r.1 = key then upsertRow key v rs else r :: upsertRow key v rs

/-- SQLite `DELETE ... WHERE chat_id = ? AND user_id = ?`. -/
def deleteRow {α : Type} (key : Int × Int) :
    List ((Int × Int) × α) → List ((Int × Int) × α)
  | [] => []
  | r :: rs => if r.1 = key then deleteRow key rs else r :: deleteRow key rs

/-- SQLite `UPDATE ... SET v WHERE chat_id = ? AND user_id = ?`. -/
def updateRow {α : Type} (key : Int × Int) (v : α) :
    List ((Int × Int) × α) → List ((Int × Int) × α)
  | [] => []
  | r :: rs => if r.1 = key then (key, v) :: updateRow key v rs else r :: updateRow key v rs

/-- Keyed `SELECT ... WHERE chat_id = ? AND user_id = ?` (first match). -/
def lookupRow {α : Type} (key : Int × Int) : List ((Int × Int) × α) → Option α
  | [] => none
  | r :: rs => if r.1 = key then some r.2 else lookupRow key rs

/-- One row of the append-only `audit` table. -/
structure AuditRow where
  rid : Nat
  chat_id : Option Int
  action : String
  user_id : Option Int
  admin_id : Option Int
  timestamp : Nat
  details : Option String
deriving DecidableEq

/-- The whole database: `bans`, `mutes`, `warns`, `audit`, plus the next
AUTOINCREMENT id for `audit`. -/
structure Ledger where
  bans : List ((Int × Int) × Nat)
  mutes : List ((Int × Int) × Nat)
  warns : List ((Int × Int) × Int)
  audit : List AuditRow
  nextId : Nat
deriving DecidableEq

/-- A freshly initialised database (`init_db` on a new file). -/
def emptyLedger : Ledger := ⟨[], [], [], [], 1⟩

/-- The scope resolution `cid = 0 if chat_id is None else int(chat_id)`
used by the ban/mute/warn family. -/
def scopeOf (chat_id : Option Int) : Int := chat_id.getD 0

/-- `ban_user(user_id, chat_id)`: upsert into `bans` with the current time. -/
def ban_user (user_id : Int) (chat_id : Option Int) (now : Nat) (s : Ledger) : Ledger :=
  { s with bans := upsertRow (scopeOf chat_id, user_id) now s.bans }

/-- `unban_user(user_id, chat_id)`: delete from `bans`. -/
def unban_user (user_id : Int) (chat_id : Option Int) (s : Ledger) : Ledger :=
  { s with bans := deleteRow (scopeOf chat_id, user_id) s.bans }

/-- `mute_user(user_id, chat_id)`: upsert into `mutes` with the current time. -/
def mute_user (user_id : Int) (chat_id : Option Int) (now : Nat) (s : Ledger) : Ledger :=
  { s with mutes := upsertRow (scopeOf chat_id, user_id) now s.mutes }

/-- `unmute_user(user_id, chat_id)`: delete from `mutes`. -/
def unmute_user (user_id : Int) (chat_id : Option Int) (s : Ledger) : Ledger :=
  { s with mutes := deleteRow (scopeOf chat_id, user_id) s.mutes }

/-- `is_banned(user_id, chat_id)`: existence check on `bans`. -/
def is_banned (user_id : Int) (chat_id : Option Int) (s : Ledger) : Bool :=
  (lookupRow (scopeOf chat_id, user_id) s.bans).isSome

/-- `is_muted(user_id, chat_id)`: existence check on `mutes`. -/
def is_muted (user_id : Int) (chat_id : Option Int) (s : Ledger) : Bool :=
  (lookupRow (scopeOf chat_id, user_id) s.mutes).isSome

/-- The first statement of `warn_user`: `SELECT count FROM warns WHERE
chat_id = ? AND user_id = ?`. -/
def warnSelect (user_id : Int) (cid : Int) (s : Ledger) : Option Int :=
  lookupRow (cid, user_id) s.warns

/-- The second statement of `warn_user`, driven by the row the earlier
SELECT returned: absent row means `INSERT ... VALUES(cid, uid, 1)` (modelled
as an append, valid while the key is absent as in any sequential run),
present row means `UPDATE warns SET count = row+1`.  Returns the new state
and the returned total. -/
def warnWrite (user_id : Int) (cid : Int) (row : Option Int) (s : Ledger) : Ledger × Int :=
  match row with
  | none => ({ s with warns := s.warns ++ [((cid, user_id), 1)] }, 1)
  | some c => ({ s with warns := updateRow (cid, user_id) (c + 1) s.warns }, c + 1)

/-- `warn_user(user_id, chat_id)`: the source's read-then-write sequence,
a SELECT followed by a separate INSERT/UPDATE on the same connection. -/
def warn_user (user_id : Int) (chat_id : Option Int) (s : Ledger) : Ledger × Int :=
  warnWrite user_id (scopeOf chat_id) (warnSelect user_id (scopeOf chat_id) s) s

/-- `get_warn_count(user_id, chat_id)`: the stored count, `0` if no row. -/
def get_warn_count (user_id : Int) (chat_id : Option Int) (s : Ledger) : Int :=
  (warnSelect user_id (scopeOf chat_id) s).getD 0

/-- `log_action(action, user_id, admin_id, details, chat_id)`: append an
audit row; an omitted `chat_id` is stored as NULL (`None`), not as `0`. -/
def log_action (action : String) (user_id admin_id : Option Int)
    (details : Option String) (chat_id : Option Int) (now : Nat) (s : Ledger) : Ledger :=
  { s with
    audit := s.audit ++ [⟨s.nextId, chat_id, action, user_id, admin_id, now, details⟩],
    nextId := s.nextId + 1 }

/-- The WHERE clause of `get_audit`: always `user_id = ?`, plus
`chat_id = ?` only when a chat was given. -/
abbrev auditPred (uid : Int) (chat : Option Int) (r : AuditRow) : Prop :=
  r.user_id = some uid ∧ (chat = none ∨ r.chat_id = chat)

/-- Insert a row into a list that is sorted by timestamp descending. -/
def insertDesc (x : AuditRow) : List AuditRow → List AuditRow
  | [] => [x]
  | y :: ys => if y.timestamp ≤ x.timestamp then x :: y :: ys else y :: insertDesc x ys

/-- Sort audit rows by timestamp descending (`ORDER BY timestamp DESC`). -/
def sortDesc : List AuditRow → List AuditRow
  | [] => []
  | y :: ys => insertDesc y (sortDesc ys)

/-- `get_audit(user_id, limit, chat_id)`: filter, order by timestamp
descending, and bound by `LIMIT ?`. -/
def get_audit (user_id : Int) (limit : Nat) (chat_id : Option Int) (s : Ledger) :
    List AuditRow :=
  (sortDesc (s.audit.filter (fun r => decide (auditPred user_id chat_id r)))).take limit

/-- The default of the `limit` parameter of `get_audit`. -/
def DEFAULT_AUDIT_LIMIT : Nat := 50

/-- `get_stats(chat_id)`: with a chat, count its ban rows and its warn rows
with positive count; with no chat, count over all chats. -/
def get_stats (chat_id : Option Int) (s : Ledger) : Nat × Nat :=
  match chat_id with
  | none =>
    (s.bans.length, (s.warns.filter (fun r => decide (0 < r.2))).length)
  | some c =>
    ((s.bans.filter (fun r => decide (r.1.1 = c))).length,
     (s.warns.filter (fun r => decide (r.1.1 = c ∧ 0 < r.2))).length)

/-!
Operation alphabet over the ledger, used for claims quantifying over "any
sequence of operations".  Mutating operations carry the clock value the
code would read from `datetime.now`.
-/

/-- One mutating ledger call. -/
inductive Op where
  | ban : Int → Option Int → Nat → Op
  | unban : Int → Option Int → Op
  | mute : Int → Option Int → Nat → Op
  | unmute : Int → Option Int → Op
  | warn : Int → Option Int → Op
  | log : String → Option Int → Option Int → Option String → Option Int → Nat → Op
deriving DecidableEq

/-- Apply one operation to the ledger state. -/
def applyOp (s : Ledger) : Op → Ledger
  | .ban u c now => ban_user u c now s
  | .unban u c => unban_user u c s
  | .mute u c now => mute_user u c now s
  | .unmute u c => unmute_user u c s
  | .warn u c => (warn_user u c s).1
  | .log a u adm d c now => log_action a u adm d c now s

/-- Apply a sequence of operations, oldest first. -/
def applyOps (s : Ledger) (ops : List Op) : Ledger :=
  ops.foldl applyOp s

/-- Whether an operation is an unban of user `u` in the scope of `c`. -/
def isUnbanOf (u : Int) (c : Option Int) : Op → Bool
  | .unban u' c' => if u' = u ∧ scopeOf c' = scopeOf c then true else false
  | _ => false

/-! Lemmas about the row-store primitives. -/

theorem lookup_cons {α : Type} (k : Int × Int) (r : (Int × Int) × α)
    (rs : List ((Int × Int) × α)) :
    lookupRow k (r :: rs) = if r.1 = k then some r.2 else lookupRow k rs := rfl

theorem lookup_upsert_self {α : Type} (k : Int × Int) (v : α)
    (rows : List ((Int × Int) × α)) : lookupRow k (upsertRow k v rows) = some v := by
  induction rows with
  | nil => simp [upsertRow, lookupRow]
  | cons r rs ih =>
    unfold upsertRow
    by_cases h : r.1 = k
    · rw [if_pos h]; exact ih
    · rw [if_neg h, lookup_cons, if_neg h]; exact ih

theorem lookup_upsert_other {α : Type} (k k' : Int × Int) (v : α)
    (rows : List ((Int × Int) × α)) (hne : k' ≠ k) :
    lookupRow k' (upsertRow k v rows) = lookupRow k' rows := by
  induction rows with
  | nil =>
    show lookupRow k' [(k, v)] = none
    rw [lookup_cons, if_neg (Ne.symm hne)]; rfl
  | cons r rs ih =>
    unfold upsertRow
    by_cases h : r.1 = k
    · have hr : r.1 ≠ k' := by rw [h]; exact Ne.symm hne
      rw [if_pos h, lookup_cons, if_neg hr]; exact ih
    · rw [if_neg h, lookup_cons, lookup_cons]
      by_cases h2 : r.1 = k'
      · rw [if_pos h2, if_pos h2]
      · rw [if_neg h2, if_neg h2]; exact ih

theorem lookup_delete_self {α : Type} (k : Int × Int)
    (rows : List ((Int × Int) × α)) : lookupRow k (deleteRow k rows) = none := by
  induction rows with
  | nil => rfl
  | cons r rs ih =>
    unfold deleteRow
    by_cases h : r.1 = k
    · rw [if_pos h]; exact ih
    · rw [if_neg h, lookup_cons, if_neg h]; exact ih

theorem lookup_delete_other {α : Type} (k k' : Int × Int)
    (rows : List ((Int × Int) × α)) (hne : k' ≠ k) :
    lookupRow k' (deleteRow k rows) = lookupRow k' rows := by
  induction rows with
  | nil => rfl
  | cons r rs ih =>
    unfold deleteRow
    by_cases h : r.1 = k
    · have hr : r.1 ≠ k' := by rw [h]; exact Ne.symm hne
      rw [if_pos h, lookup_cons, if_neg hr]; exact ih
    · rw [if_neg h, lookup_cons, lookup_cons]
      by_cases h2 : r.1 = k'
      · rw [if_pos h2, if_pos h2]
      · rw [if_neg h2, if_neg h2]; exact ih

theorem lookup_update_self {α : Type} (k : Int × Int) (v : α)
    (rows : List ((Int × Int) × α)) :
    lookupRow k (updateRow k v rows) = (lookupRow k rows).map (fun _ => v) := by
  induction rows with
  | nil => rfl
  | cons r rs ih =>
    unfold updateRow
    by_cases h : r.1 = k
    · rw [if_pos h]
      rw [lookup_cons, if_pos (rfl : ((k, v) : (Int × Int) × α).1 = k)]
      rw [lookup_cons, if_pos h]
      rfl
    · rw [if_neg h, lookup_cons, lookup_cons, if_neg h, if_neg h]; exact ih

theorem lookup_update_other {α : Type} (k k' : Int × Int) (v : α)
    (rows : List ((Int × Int) × α)) (hne : k' ≠ k) :
    lookupRow k' (updateRow k v rows) = lookupRow k' rows := by
  induction rows with
  | nil => rfl
  | cons r rs ih =>
    unfold updateRow
    by_cases h : r.1 = k
    · rw [if_pos h, lookup_cons, lookup_cons]
      show (if k = k' then some v else _) = _
      rw [if_neg (Ne.symm hne), if_neg (h ▸ Ne.symm hne : r.1 ≠ k')]
      exact ih
    · rw [if_neg h, lookup_cons, lookup_cons]
      by_cases h2 : r.1 = k'
      · rw [if_pos h2, if_pos h2]
      · rw [if_neg h2, if_neg h2]; exact ih

theorem lookup_append_one {α : Type} (k k' : Int × Int) (v : α)
    (rows : List ((Int × Int) × α)) :
    lookupRow k' (rows ++ [(k, v)]) =
      match lookupRow k' rows with
      | some w => some w
      | none => if k = k' then some v else none := by
  induction rows with
  | nil =>
    show lookupRow k' [(k, v)] = _
    by_cases h : k = k'
    · simp [lookupRow, h]
    · have h2 : (k, v).1 ≠ k' := h
      simp [lookupRow, h, h2]
  | cons r rs ih =>
    show lookupRow k' (r :: (rs ++ [(k, v)])) = _
    rw [lookup_cons, lookup_cons]
    by_cases h : r.1 = k'
    · rw [if_pos h, if_pos h]
    · rw [if_neg h, if_neg h]; exact ih

theorem lookup_isSome_iff {α : Type} (k : Int × Int) (rows : List ((Int × Int) × α)) :
    (lookupRow k rows).isSome = true ↔ k ∈ rows.map (fun r => r.1) := by
  induction rows with
  | nil => simp [lookupRow]
  | cons r rs ih =>
    rw [lookup_cons]
    by_cases h : r.1 = k
    · simp [h]
    · rw [if_neg h]
      simp only [List.map_cons, List.mem_cons]
      constructor
      · intro hs; exact Or.inr (ih.mp hs)
      · intro hs
        rcases hs with hs | hs
        · exact absurd hs.symm h
        · exact ih.mpr hs

theorem lookup_mem {α : Type} (k : Int × Int) (v : α)
    (rows : List ((Int × Int) × α)) (h : lookupRow k rows = some v) : (k, v) ∈ rows := by
  induction rows with
  | nil => simp [lookupRow] at h
  | cons r rs ih =>
    rw [lookup_cons] at h
    by_cases hk : r.1 = k
    · rw [if_pos hk] at h
      have hv : r.2 = v := Option.some.inj h
      have : r = (k, v) := by
        calc r = (r.1, r.2) := rfl
          _ = (k, v) := by rw [hk, hv]
      rw [← this]; exact List.mem_cons_self r rs
    · rw [if_neg hk] at h
      exact List.mem_cons_of_mem _ (ih h)

/-! Warn-counter lemmas and the first claims. -/

/-- Apply `warn_user` for the same key `n` times in sequence. -/
def warnTimes : Nat → Int → Option Int → Ledger → Ledger
  | 0, _, _, s => s
  | n + 1, u, c, s => warnTimes n u c (warn_user u c s).1

theorem get_warn_count_warn (u : Int) (c : Option Int) (s : Ledger) :
    get_warn_count u c (warn_user u c s).1 = get_warn_count u c s + 1 := by
  unfold get_warn_count warn_user
  cases h : warnSelect u (scopeOf c) s with
  | none =>
    have h' : lookupRow (scopeOf c, u) s.warns = none := h
    show (warnSelect u (scopeOf c)
        ({ s with warns := s.warns ++ [((scopeOf c, u), 1)] } : Ledger)).getD 0 = _
    unfold warnSelect
    rw [lookup_append_one, h', if_pos rfl]
    rfl
  | some k =>
    have h' : lookupRow (scopeOf c, u) s.warns = some k := h
    show (warnSelect u (scopeOf c)
        ({ s with warns := updateRow (scopeOf c, u) (k + 1) s.warns } : Ledger)).getD 0 = _
    unfold warnSelect
    rw [lookup_update_self, h']
    rfl

theorem warn_user_ret (u : Int) (c : Option Int) (s : Ledger) :
    (warn_user u c s).2 = get_warn_count u c s + 1 := by
  unfold get_warn_count warn_user
  cases h : warnSelect u (scopeOf c) s with
  | none => rfl
  | some k => rfl

theorem get_warn_count_warnTimes (n : Nat) (u : Int) (c : Option Int) (s : Ledger) :
    get_warn_count u c (warnTimes n u c s) = get_warn_count u c s + (n : Int) := by
  induction n generalizing s with
  | zero => simp [warnTimes]
  | succ m ih =>
    show get_warn_count u c (warnTimes m u c (warn_user u c s).1) = _
    rw [ih, get_warn_count_warn]
    push_cast
    ring

/-- The ledger used as the initial state of the lost-update execution: the
key `(chat 0, user 7)` already has warn count 5. -/
def c1Initial : Ledger := { bans := [], mutes := [], warns := [((0, 7), 5)], audit := [], nextId := 1 }

/-- Claim C1: `warn_user` is claimed to be a transactional upsert-and-increment
so that concurrent warns lose no increments.  The source instead issues a
SELECT and then a separate INSERT/UPDATE: `warn_user` is definitionally the
composition of the two statements, and interleaving two warn calls on the
same key as read-read-write-write loses an increment — starting from count 5,
both calls read 5 and both write 6, so the final count is 6, not 5 + 2. -/
theorem warn_lost_update_interleaving :
    warn_user 7 none c1Initial = warnWrite 7 0 (warnSelect 7 0 c1Initial) c1Initial
    ∧ warnSelect 7 0 c1Initial = some 5
    ∧ get_warn_count 7 none
        ((warnWrite 7 0 (some 5) ((warnWrite 7 0 (some 5) c1Initial).1)).1) = 6
    ∧ (6 : Int) ≠ 5 + 2 :=
  ⟨rfl, rfl, rfl, by decide⟩

/-- Claim C2: the spec (and the source's own comment) say the empty banned
list compiles to a matcher that never matches any input.  The fallback
pattern is `$^`, and under Python semantics `$` also matches just before a
trailing newline, so the compiled matcher matches the one-character text
`"\n"` (and the empty text), and `is_bad_message("\n", [])` returns true. -/
theorem empty_banned_matches_newline :
    is_bad_message (some ['\n']) (some []) = Except.ok true
    ∧ patternString [] = ['$', '^']
    ∧ compilePattern []
        = Except.ok (Regex.seq Regex.eol (Regex.seq Regex.bol Regex.eps))
    ∧ research (Regex.seq Regex.eol (Regex.seq Regex.bol Regex.eps)) ['\n'] = true
    ∧ research (Regex.seq Regex.eol (Regex.seq Regex.bol Regex.eps)) [] = true :=
  ⟨rfl, rfl, rfl, rfl, rfl⟩

/-- Claim C4: sequential warn semantics.  With no prior row the count reads
0, a warn returns 1 and creates the row with count 1; every warn returns and
stores the prior count plus one; and `n` sequential warns starting from no
row leave the count at `n`. -/
theorem warn_sequential_semantics (u : Int) (c : Option Int) (s : Ledger) :
    (warnSelect u (scopeOf c) s = none →
       get_warn_count u c s = 0
       ∧ (warn_user u c s).2 = 1
       ∧ warnSelect u (scopeOf c) (warn_user u c s).1 = some 1)
    ∧ (warn_user u c s).2 = get_warn_count u c s + 1
    ∧ get_warn_count u c (warn_user u c s).1 = get_warn_count u c s + 1
    ∧ (∀ n : Nat, warnSelect u (scopeOf c) s = none →
        get_warn_count u c (warnTimes n u c s) = (n : Int)) := by
  refine ⟨fun h => ⟨?_, ?_, ?_⟩, warn_user_ret u c s, get_warn_count_warn u c s, fun n h => ?_⟩
  · unfold get_warn_count
    rw [h]
    rfl
  · unfold warn_user
    rw [h]
    rfl
  · have h' : lookupRow (scopeOf c, u) s.warns = none := h
    unfold warn_user
    rw [h]
    show lookupRow (scopeOf c, u) (s.warns ++ [((scopeOf c, u), 1)]) = some 1
    rw [lookup_append_one, h', if_pos rfl]
  · rw [get_warn_count_warnTimes]
    unfold get_warn_count
    rw [h]
    simp

theorem warn_sequential_semantics_witness :
    warnSelect 3 (scopeOf none) emptyLedger = none
    ∧ get_warn_count 3 none (warnTimes 2 3 none emptyLedger) = ((2 : Nat) : Int) :=
  ⟨rfl, (warn_sequential_semantics 3 none emptyLedger).2.2.2 2 rfl⟩

/-! Claim C6: the banned axis under arbitrary operations, and its
independence from the muted axis. -/

theorem warn_user_bans (u : Int) (c : Option Int) (s : Ledger) :
    (warn_user u c s).1.bans = s.bans := by
  unfold warn_user
  cases h : warnSelect u (scopeOf c) s with
  | none => rfl
  | some k => rfl

theorem warn_user_mutes (u : Int) (c : Option Int) (s : Ledger) :
    (warn_user u c s).1.mutes = s.mutes := by
  unfold warn_user
  cases h : warnSelect u (scopeOf c) s with
  | none => rfl
  | some k => rfl

/-- Claim C6: after `ban(u,c)` the user is banned; every operation other
than an unban of the same user in the same scope preserves that; an unban
of the same user in the same scope makes it false; and `is_muted` (for any
key) is unchanged by `ban` and `unban` — the two axes are independent. -/
theorem ban_axis_semantics (u : Int) (c : Option Int) (now : Nat) (s : Ledger) :
    is_banned u c (ban_user u c now s) = true
    ∧ (∀ op : Op, is_banned u c s = true → isUnbanOf u c op = false →
        is_banned u c (applyOp s op) = true)
    ∧ (∀ c' : Option Int, scopeOf c' = scopeOf c →
        is_banned u c (unban_user u c' s) = false)
    ∧ (∀ u' : Int, ∀ c' : Option Int,
        is_muted u' c' (ban_user u c now s) = is_muted u' c' s
        ∧ is_muted u' c' (unban_user u c s) = is_muted u' c' s) := by
  refine ⟨?_, ?_, ?_, ?_⟩
  · unfold is_banned ban_user
    show (lookupRow (scopeOf c, u) (upsertRow (scopeOf c, u) now s.bans)).isSome = true
    rw [lookup_upsert_self]
    rfl
  · intro op hb hnu
    cases op with
    | ban u2 c2 now2 =>
      unfold applyOp ban_user is_banned
      show (lookupRow (scopeOf c, u)
        (upsertRow (scopeOf c2, u2) now2 s.bans)).isSome = true
      by_cases hk : ((scopeOf c, u) : Int × Int) = (scopeOf c2, u2)
      · rw [hk, lookup_upsert_self]; rfl
      · rw [lookup_upsert_other _ _ _ _ hk]; exact hb
    | unban u2 c2 =>
      unfold applyOp unban_user is_banned
      show (lookupRow (scopeOf c, u)
        (deleteRow (scopeOf c2, u2) s.bans)).isSome = true
      have hk : ((scopeOf c, u) : Int × Int) ≠ (scopeOf c2, u2) := by
        intro hEq
        have h1 : scopeOf c = scopeOf c2 := congrArg Prod.fst hEq
        have h2 : u = u2 := congrArg Prod.snd hEq
        have hnu' : (if u2 = u ∧ scopeOf c2 = scopeOf c then true else false) = false := hnu
        rw [if_pos ⟨h2.symm, h1.symm⟩] at hnu'
        exact Bool.noConfusion hnu'
      rw [lookup_delete_other _ _ _ hk]
      exact hb
    | mute u2 c2 now2 => exact hb
    | unmute u2 c2 => exact hb
    | warn u2 c2 =>
      unfold applyOp is_banned
      rw [warn_user_bans]
      exact hb
    | log a u2 adm d c2 now2 => exact hb
  · intro c' hsc
    unfold is_banned unban_user
    show (lookupRow (scopeOf c, u)
      (deleteRow (scopeOf c', u) s.bans)).isSome = false
    rw [hsc, lookup_delete_self]
    rfl
  · intro u' c'
    exact ⟨rfl, rfl⟩

theorem ban_axis_semantics_witness :
    is_banned 1 (some 2) (ban_user 1 (some 2) 0 emptyLedger) = true
    ∧ isUnbanOf 1 (some 2) (Op.warn 1 (some 2)) = false
    ∧ is_banned 1 (some 2)
        (applyOp (ban_user 1 (some 2) 0 emptyLedger) (Op.warn 1 (some 2))) = true
    ∧ scopeOf (some 2) = scopeOf (some 2)
    ∧ is_banned 1 (some 2) (unban_user 1 (some 2)
        (ban_user 1 (some 2) 0 emptyLedger)) = false :=
  ⟨(ban_axis_semantics 1 (some 2) 0 emptyLedger).1,
   by decide,
   (ban_axis_semantics 1 (some 2) 0 (ban_user 1 (some 2) 0 emptyLedger)).2.1
     (Op.warn 1 (some 2)) (by decide) (by decide),
   rfl,
   (ban_axis_semantics 1 (some 2) 0 (ban_user 1 (some 2) 0 emptyLedger)).2.2.1
     (some 2) rfl⟩

/-! Claim C9: omitted chat_id versus the sentinel scope 0. -/

/-- Claim C9 counterexample: `get_stats` with `chat_id` omitted counts over
all chats, not over the sentinel scope 0 — after banning user 42 in chat 1,
the omitted-chat stats are (1, 0) while the scope-0 stats are (0, 0). -/
theorem omitted_chat_not_scope_zero :
    get_stats none (ban_user 42 (some 1) 0 emptyLedger) = (1, 0)
    ∧ get_stats (some 0) (ban_user 42 (some 1) 0 emptyLedger) = (0, 0)
    ∧ get_stats none (ban_user 42 (some 1) 0 emptyLedger)
        ≠ get_stats (some 0) (ban_user 42 (some 1) 0 emptyLedger) :=
  ⟨rfl, rfl, by decide⟩

/-- Claim C9 as amended: omitting `chat_id` is equivalent to passing the
sentinel scope 0 for the eight cid-resolving operations (ban, unban,
is_banned, mute, unmute, is_muted, warn, get_warn_count); but `log_action`
stores an omitted chat as NULL (not 0), and `get_audit`/`get_stats` with an
omitted chat operate across all chats, which differs from scope 0. -/
theorem omitted_chat_semantics (u adm : Int) (a : String) (d : Option String)
    (now : Nat) (lim : Nat) (s : Ledger) :
    ban_user u none now s = ban_user u (some 0) now s
    ∧ unban_user u none s = unban_user u (some 0) s
    ∧ mute_user u none now s = mute_user u (some 0) now s
    ∧ unmute_user u none s = unmute_user u (some 0) s
    ∧ is_banned u none s = is_banned u (some 0) s
    ∧ is_muted u none s = is_muted u (some 0) s
    ∧ warn_user u none s = warn_user u (some 0) s
    ∧ get_warn_count u none s = get_warn_count u (some 0) s
    ∧ log_action a (some u) (some adm) d none now s
        = { s with audit := s.audit ++ [⟨s.nextId, none, a, some u, some adm, now, d⟩],
                   nextId := s.nextId + 1 }
    ∧ (none : Option Int) ≠ some 0
    ∧ get_audit u lim none s
        = (sortDesc (s.audit.filter (fun r => decide (auditPred u none r)))).take lim
    ∧ get_stats none s = (s.bans.length, (s.warns.filter (fun r => decide (0 < r.2))).length)
    ∧ get_stats none (ban_user 42 (some 1) 0 emptyLedger)
        ≠ get_stats (some 0) (ban_user 42 (some 1) 0 emptyLedger) :=
  ⟨rfl, rfl, rfl, rfl, rfl, rfl, rfl, rfl, rfl, by decide, rfl, rfl, by decide⟩

/-! Audit-ordering lemmas for claim C7. -/

theorem mem_insertDesc (x z : AuditRow) (l : List AuditRow) :
    z ∈ insertDesc x l ↔ z = x ∨ z ∈ l := by
  induction l with
  | nil => simp [insertDesc]
  | cons y ys ih =>
    unfold insertDesc
    by_cases h : y.timestamp ≤ x.timestamp
    · rw [if_pos h]; simp
    · rw [if_neg h]
      simp only [List.mem_cons, ih]
      tauto

theorem pairwise_insertDesc (x : AuditRow) (l : List AuditRow)
    (h : List.Pairwise (fun a b => b.timestamp ≤ a.timestamp) l) :
    List.Pairwise (fun a b => b.timestamp ≤ a.timestamp) (insertDesc x l) := by
  induction l with
  | nil => simp [insertDesc]
  | cons y ys ih =>
    unfold insertDesc
    by_cases hxy : y.timestamp ≤ x.timestamp
    · rw [if_pos hxy]
      refine List.Pairwise.cons ?_ h
      intro z hz
      rcases List.mem_cons.mp hz with hz | hz
      · rw [hz]; exact hxy
      · exact le_trans (List.rel_of_pairwise_cons h hz) hxy
    · rw [if_neg hxy]
      have hx : x.timestamp ≤ y.timestamp := le_of_not_le hxy
      have hy := List.pairwise_cons.mp h
      refine List.pairwise_cons.mpr ⟨?_, ih hy.2⟩
      intro z hz
      rcases (mem_insertDesc x z ys).mp hz with hz | hz
      · rw [hz]; exact hx
      · exact hy.1 z hz

theorem sortDesc_pairwise (l : List AuditRow) :
    List.Pairwise (fun a b => b.timestamp ≤ a.timestamp) (sortDesc l) := by
  induction l with
  | nil => simp [sortDesc]
  | cons y ys ih => exact pairwise_insertDesc y (sortDesc ys) ih

theorem sortDesc_append_max (l : List AuditRow) (x : AuditRow)
    (h : ∀ y ∈ l, y.timestamp < x.timestamp) :
    ∃ t, sortDesc (l ++ [x]) = x :: t := by
  induction l with
  | nil => exact ⟨[], rfl⟩
  | cons y ys ih =>
    have hy : y.timestamp < x.timestamp := h y (List.mem_cons_self y ys)
    obtain ⟨t, ht⟩ := ih (fun z hz => h z (List.mem_cons_of_mem y hz))
    refine ⟨insertDesc y t, ?_⟩
    show insertDesc y (sortDesc (ys ++ [x])) = x :: insertDesc y t
    rw [ht]
    show (if x.timestamp ≤ y.timestamp then y :: x :: t else x :: insertDesc y t)
      = x :: insertDesc y t
    rw [if_neg (not_le_of_lt hy)]

/-- Claim C7: the audit round-trip.  Logging an action and querying the same
user (scoped to the same chat, or with the chat omitted) returns the logged
record first, provided the clock is fresh and the limit is positive;
`get_audit` results are always sorted by timestamp descending and bounded
by the limit; and an omitted chat imposes no chat constraint, so the record
logged for chat `c` still appears. -/
theorem audit_semantics (a : String) (uid adm c : Int) (d : Option String)
    (now : Nat) (lim : Nat) (s : Ledger)
    (hfresh : ∀ r ∈ s.audit, r.timestamp < now) (hlim : 1 ≤ lim) :
    ((get_audit uid lim (some c)
        (log_action a (some uid) (some adm) d (some c) now s)).head?
      = some ⟨s.nextId, some c, a, some uid, some adm, now, d⟩
     ∧ (get_audit uid lim none
          (log_action a (some uid) (some adm) d (some c) now s)).head?
      = some ⟨s.nextId, some c, a, some uid, some adm, now, d⟩)
    ∧ (∀ uid' : Int, ∀ lim' : Nat, ∀ chat' : Option Int, ∀ s' : Ledger,
        List.Pairwise (fun p q => q.timestamp ≤ p.timestamp)
          (get_audit uid' lim' chat' s')
        ∧ (get_audit uid' lim' chat' s').length ≤ lim') := by
  have core : ∀ chat' : Option Int,
      (decide (auditPred uid chat'
        (⟨s.nextId, some c, a, some uid, some adm, now, d⟩ : AuditRow)) = true) →
      (get_audit uid lim chat'
          (log_action a (some uid) (some adm) d (some c) now s)).head?
        = some ⟨s.nextId, some c, a, some uid, some adm, now, d⟩ := by
    intro chat' hmatch
    unfold get_audit log_action
    show ((sortDesc ((s.audit ++ [_]).filter _)).take lim).head? = _
    rw [List.filter_append]
    have hone : List.filter (fun r => decide (auditPred uid chat' r))
        [(⟨s.nextId, some c, a, some uid, some adm, now, d⟩ : AuditRow)]
        = [⟨s.nextId, some c, a, some uid, some adm, now, d⟩] := by
      simp [List.filter, hmatch]
    rw [hone]
    obtain ⟨t, ht⟩ := sortDesc_append_max
      (s.audit.filter (fun r => decide (auditPred uid chat' r)))
      ⟨s.nextId, some c, a, some uid, some adm, now, d⟩
      (fun y hy => hfresh y (List.mem_of_mem_filter hy))
    rw [ht]
    obtain ⟨m, hm⟩ := Nat.exists_eq_add_of_le hlim
    rw [hm, Nat.add_comm, List.take_succ_cons]
    rfl
  refine ⟨⟨?_, ?_⟩, fun uid' lim' chat' s' => ⟨?_, ?_⟩⟩
  · refine core (some c) ?_
    simp [auditPred]
  · refine core none ?_
    simp [auditPred]
  · exact List.Pairwise.sublist (List.take_sublist _ _) (sortDesc_pairwise _)
  · unfold get_audit
    exact List.length_take_le _ _

theorem audit_semantics_witness :
    (∀ r ∈ emptyLedger.audit, r.timestamp < 1)
    ∧ (1 : Nat) ≤ 50
    ∧ (get_audit 7 50 (some 5)
        (log_action "warn" (some 7) (some 99) (some "x") (some 5) 1 emptyLedger)).head?
      = some ⟨1, some 5, "warn", some 7, some 99, 1, some "x"⟩ :=
  ⟨by simp [emptyLedger], by decide,
   (audit_semantics "warn" 7 99 5 (some "x") 1 50 emptyLedger
     (by simp [emptyLedger]) (by decide)).1.1⟩

/-! Classifier lemmas: search distributes over the compiled alternation. -/

/-- The `(chat_id, user_id)` primary keys of a table. -/
def keysOf {α : Type} (rows : List ((Int × Int) × α)) : List (Int × Int) :=
  rows.map (fun r => r.1)

/-- Invariant of every reachable database: row keys are unique (they are
SQL primary keys) and every stored warn count is at least 1. -/
def LedgerInv (s : Ledger) : Prop :=
  (keysOf s.bans).Nodup ∧ (keysOf s.warns).Nodup ∧ ∀ r ∈ s.warns, 1 ≤ r.2

theorem mem_keys_upsert {α : Type} (k x : Int × Int) (v : α)
    (rows : List ((Int × Int) × α)) (h : x ∈ keysOf (upsertRow k v rows)) :
    x = k ∨ x ∈ keysOf rows := by
  induction rows with
  | nil =>
    simp only [upsertRow, keysOf, List.map_cons, List.map_nil,
      List.mem_singleton] at h
    exact Or.inl h
  | cons r rs ih =>
    unfold upsertRow at h
    by_cases hr : r.1 = k
    · rw [if_pos hr] at h
      rcases ih h with h | h
      · exact Or.inl h
      · right
        simp only [keysOf, List.map_cons, List.mem_cons]
        exact Or.inr h
    · rw [if_neg hr] at h
      simp only [keysOf, List.map_cons, List.mem_cons] at h
      rcases h with h | h
      · right
        simp only [keysOf, List.map_cons, List.mem_cons]
        exact Or.inl h
      · rcases ih h with h2 | h2
        · exact Or.inl h2
        · right
          simp only [keysOf, List.map_cons, List.mem_cons]
          exact Or.inr h2

theorem nodup_keys_upsert {α : Type} (k : Int × Int) (v : α)
    (rows : List ((Int × Int) × α)) (h : (keysOf rows).Nodup) :
    (keysOf (upsertRow k v rows)).Nodup := by
  induction rows with
  | nil => simp [upsertRow, keysOf]
  | cons r rs ih =>
    simp only [keysOf, List.map_cons, List.nodup_cons] at h
    unfold upsertRow
    by_cases hr : r.1 = k
    · rw [if_pos hr]
      exact ih h.2
    · rw [if_neg hr]
      simp only [keysOf, List.map_cons, List.nodup_cons]
      refine ⟨?_, ih h.2⟩
      intro hmem
      rcases mem_keys_upsert k r.1 v rs hmem with h2 | h2
      · exact hr h2
      · exact h.1 h2

theorem delete_sublist {α : Type} (k : Int × Int) (rows : List ((Int × Int) × α)) :
    List.Sublist (deleteRow k rows) rows := by
  induction rows with
  | nil => simp [deleteRow]
  | cons r rs ih =>
    unfold deleteRow
    by_cases hr : r.1 = k
    · rw [if_pos hr]
      exact ih.cons r
    · rw [if_neg hr]
      exact ih.cons₂ r

theorem keys_update_eq {α : Type} (k : Int × Int) (v : α)
    (rows : List ((Int × Int) × α)) :
    keysOf (updateRow k v rows) = keysOf rows := by
  induction rows with
  | nil => rfl
  | cons r rs ih =>
    unfold updateRow
    have ih' : List.map (fun r => r.1) (updateRow k v rs)
        = List.map (fun r => r.1) rs := ih
    by_cases hr : r.1 = k
    · rw [if_pos hr]
      simp only [keysOf, List.map_cons]
      rw [hr, ih']
    · rw [if_neg hr]
      simp only [keysOf, List.map_cons]
      rw [ih']

theorem mem_update {α : Type} (k : Int × Int) (v : α)
    (rows : List ((Int × Int) × α)) (r' : (Int × Int) × α)
    (h : r' ∈ updateRow k v rows) : r' = (k, v) ∨ r' ∈ rows := by
  induction rows with
  | nil => simp [updateRow] at h
  | cons r rs ih =>
    unfold updateRow at h
    by_cases hr : r.1 = k
    · rw [if_pos hr] at h
      rcases List.mem_cons.mp h with h | h
      · exact Or.inl h
      · rcases ih h with h2 | h2
        · exact Or.inl h2
        · exact Or.inr (List.mem_cons_of_mem r h2)
    · rw [if_neg hr] at h
      rcases List.mem_cons.mp h with h | h
      · exact Or.inr (h ▸ List.mem_cons_self r rs)
      · rcases ih h with h2 | h2
        · exact Or.inl h2
        · exact Or.inr (List.mem_cons_of_mem r h2)

theorem inv_applyOp (s : Ledger) (op : Op) (h : LedgerInv s) :
    LedgerInv (applyOp s op) := by
  obtain ⟨hb, hw, hv⟩ := h
  cases op with
  | ban u c now => exact ⟨nodup_keys_upsert _ _ _ hb, hw, hv⟩
  | unban u c =>
    exact ⟨List.Nodup.sublist (List.Sublist.map _ (delete_sublist _ _)) hb, hw, hv⟩
  | mute u c now => exact ⟨hb, hw, hv⟩
  | unmute u c => exact ⟨hb, hw, hv⟩
  | log a u2 adm d c now => exact ⟨hb, hw, hv⟩
  | warn u c =>
    show LedgerInv (warn_user u c s).1
    unfold warn_user
    cases hsel : warnSelect u (scopeOf c) s with
    | none =>
      have hnot : (scopeOf c, u) ∉ keysOf s.warns := by
        intro hmem
        have hs := (lookup_isSome_iff (scopeOf c, u) s.warns).mpr hmem
        have hsel' : lookupRow (scopeOf c, u) s.warns = none := hsel
        rw [hsel'] at hs
        cases hs
      refine ⟨hb, ?_, ?_⟩
      · show (keysOf (s.warns ++ [((scopeOf c, u), 1)])).Nodup
        have hk : keysOf (s.warns ++ [((scopeOf c, u), 1)])
            = keysOf s.warns ++ [(scopeOf c, u)] := by
          simp [keysOf]
        rw [hk, List.nodup_append]
        refine ⟨hw, List.nodup_singleton _, ?_⟩
        intro x hx hx2
        rw [List.mem_singleton] at hx2
        rw [hx2] at hx
        exact hnot hx
      · intro r hr
        rcases List.mem_append.mp hr with hr | hr
        · exact hv r hr
        · rw [List.mem_singleton] at hr
          rw [hr]
    | some kcount =>
      refine ⟨hb, ?_, ?_⟩
      · show (keysOf (updateRow (scopeOf c, u) (kcount + 1) s.warns)).Nodup
        rw [keys_update_eq]
        exact hw
      · intro r hr
        rcases mem_update _ _ _ _ hr with hr | hr
        · rw [hr]
          show (1 : Int) ≤ kcount + 1
          have hmem : ((scopeOf c, u), kcount) ∈ s.warns := lookup_mem _ _ _ hsel
          have h1 : (1 : Int) ≤ kcount := hv _ hmem
          linarith
        · exact hv r hr

theorem inv_applyOps (ops : List Op) : ∀ s : Ledger, LedgerInv s →
    LedgerInv (applyOps s ops) := by
  induction ops with
  | nil => intro s h; exact h
  | cons op rest ih => intro s h; exact ih _ (inv_applyOp s op h)

theorem inv_empty : LedgerInv emptyLedger :=
  ⟨List.nodup_nil, List.nodup_nil, fun r hr => absurd hr (List.not_mem_nil r)⟩

/-- The oracle of claim C8, recomputed from the raw rows: the number of
distinct users with a Ban row for chat `c`, and the number of distinct
users whose warn count for chat `c` is positive. -/
def oracleStats (c : Int) (s : Ledger) : Nat × Nat :=
  (((s.bans.map (fun r => r.1.2)).toFinset.filter
      (fun u => is_banned u (some c) s = true)).card,
   ((s.warns.map (fun r => r.1.2)).toFinset.filter
      (fun u => 0 < get_warn_count u (some c) s)).card)

/-- Core counting argument: with unique keys, the number of rows of chat
`c` equals the number of distinct users whose key `(c, u)` is present. -/
theorem rows_chat_count {α : Type} (rows : List ((Int × Int) × α)) (c : Int)
    (hnd : (keysOf rows).Nodup) :
    (rows.filter (fun r => decide (r.1.1 = c))).length
      = ((rows.map (fun r => r.1.2)).toFinset.filter
          (fun u => (lookupRow (c, u) rows).isSome = true)).card := by
  classical
  have e1 : ((keysOf rows).filter (fun k => decide (k.1 = c))).length
      = (rows.filter (fun r => decide (r.1.1 = c))).length := by
    show ((List.map (fun r => r.1) rows).filter (fun k => decide (k.1 = c))).length = _
    rw [List.filter_map, List.length_map]
    exact congrArg List.length (List.filter_congr (fun x _ => rfl))
  have hnd2 : ((keysOf rows).filter (fun k => decide (k.1 = c))).Nodup :=
    List.Nodup.filter _ hnd
  have e2 : ((keysOf rows).filter (fun k => decide (k.1 = c))).toFinset.card
      = ((keysOf rows).filter (fun k => decide (k.1 = c))).length :=
    List.toFinset_card_of_nodup hnd2
  have e3 : ((keysOf rows).filter (fun k => decide (k.1 = c))).toFinset
      = (keysOf rows).toFinset.filter (fun k => decide (k.1 = c) = true) :=
    List.toFinset_filter _ _
  have inj : Set.InjOn Prod.snd
      ((((keysOf rows).toFinset.filter (fun k => decide (k.1 = c) = true)) :
        Finset (Int × Int)) : Set (Int × Int)) := by
    intro a ha b hb hab
    have ha2 := (Finset.mem_filter.mp ha).2
    have hb2 := (Finset.mem_filter.mp hb).2
    have ha3 : a.1 = c := of_decide_eq_true ha2
    have hb3 : b.1 = c := of_decide_eq_true hb2
    exact Prod.ext (ha3.trans hb3.symm) hab
  have e4 : (((keysOf rows).toFinset.filter
      (fun k => decide (k.1 = c) = true)).image Prod.snd).card
      = ((keysOf rows).toFinset.filter (fun k => decide (k.1 = c) = true)).card :=
    Finset.card_image_of_injOn inj
  have e5 : ((keysOf rows).toFinset.filter
      (fun k => decide (k.1 = c) = true)).image Prod.snd
      = (rows.map (fun r => r.1.2)).toFinset.filter
          (fun u => (lookupRow (c, u) rows).isSome = true) := by
    ext u
    simp only [Finset.mem_image, Finset.mem_filter, List.mem_toFinset]
    constructor
    · rintro ⟨k, ⟨hk, hkc⟩, hsnd⟩
      have hkc' : k.1 = c := of_decide_eq_true hkc
      have hku : k = (c, u) := Prod.ext hkc' hsnd
      have hkey : (c, u) ∈ keysOf rows := hku ▸ hk
      obtain ⟨r, hr, hr1⟩ := List.mem_map.mp hkey
      refine ⟨List.mem_map.mpr ⟨r, hr, ?_⟩, (lookup_isSome_iff _ _).mpr hkey⟩
      show r.1.2 = u
      rw [hr1]
    · rintro ⟨hu, hlook⟩
      have hkey : (c, u) ∈ keysOf rows := (lookup_isSome_iff _ _).mp hlook
      exact ⟨(c, u), ⟨hkey, decide_eq_true rfl⟩, rfl⟩
  rw [← e1, ← e2, e3, ← e5, e4]

theorem warn_pos_iff (s : Ledger) (hv : ∀ r ∈ s.warns, 1 ≤ r.2) (c u : Int) :
    (lookupRow (c, u) s.warns).isSome = true ↔
      0 < (lookupRow (c, u) s.warns).getD 0 := by
  cases h : lookupRow (c, u) s.warns with
  | none => simp
  | some v =>
    simp only [Option.isSome_some, Option.getD_some]
    have hvv : (1 : Int) ≤ v := hv _ (lookup_mem _ _ _ h)
    constructor
    · intro _
      linarith
    · intro _
      trivial

theorem stats_eq_oracle (s : Ledger) (hinv : LedgerInv s) (c : Int) :
    get_stats (some c) s = oracleStats c s := by
  obtain ⟨hb, hw, hv⟩ := hinv
  have efst : (s.bans.filter (fun r => decide (r.1.1 = c))).length
      = ((s.bans.map (fun r => r.1.2)).toFinset.filter
          (fun u => is_banned u (some c) s = true)).card :=
    rows_chat_count s.bans c hb
  have e0 : s.warns.filter (fun r => decide (r.1.1 = c ∧ 0 < r.2))
      = s.warns.filter (fun r => decide (r.1.1 = c)) := by
    apply List.filter_congr
    intro x hx
    have h1 : (0 : Int) < x.2 := lt_of_lt_of_le zero_lt_one (hv x hx)
    by_cases hc : x.1.1 = c
    · simp [hc, h1]
    · simp [hc]
  have e3 : (s.warns.map (fun r => r.1.2)).toFinset.filter
        (fun u => (lookupRow (c, u) s.warns).isSome = true)
      = (s.warns.map (fun r => r.1.2)).toFinset.filter
        (fun u => 0 < get_warn_count u (some c) s) :=
    Finset.filter_congr (fun u _ => warn_pos_iff s hv c u)
  have esnd : (s.warns.filter (fun r => decide (r.1.1 = c ∧ 0 < r.2))).length
      = ((s.warns.map (fun r => r.1.2)).toFinset.filter
          (fun u => 0 < get_warn_count u (some c) s)).card := by
    rw [e0, rows_chat_count s.warns c hw, e3]
  exact Prod.ext efst esnd

/-- Claim C8: over every reachable database (any operation sequence from a
fresh database), `get_stats(c)` equals the pair recomputed from the raw Ban
and WarnCounter rows: the number of distinct users banned in `c` and the
number of distinct users with positive warn count in `c`.  The spec's
concrete scenario is included: ban 42 in chat 1, warn it three times, stats
are (1, 1); unban it, stats become (0, 1). -/
theorem stats_matches_oracle (ops : List Op) (c : Int) :
    get_stats (some c) (applyOps emptyLedger ops)
      = oracleStats c (applyOps emptyLedger ops)
    ∧ get_stats (some 1)
        (warnTimes 3 42 (some 1) (ban_user 42 (some 1) 0 emptyLedger)) = (1, 1)
    ∧ get_stats (some 1) (unban_user 42 (some 1)
        (warnTimes 3 42 (some 1) (ban_user 42 (some 1) 0 emptyLedger))) = (0, 1) :=
  ⟨stats_eq_oracle _ (inv_applyOps ops emptyLedger inv_empty) c, rfl, rfl⟩


/-! Parser-composition lemmas: a fragment that parses on its own parses the
same way with more fuel, followed by a stop character, or followed by
arbitrary further input beyond a nonempty remainder. -/

theorem applyQuant_nil (r : Regex) : applyQuant r [] = .ok (r, []) := rfl

/-- Claim C10: an entry starting with the three characters `re:` is always
interpreted as a raw pattern — the marker is stripped and the remainder
placed verbatim inside a `(?:`...`)` group — and such an entry's fragment
is never the escaped word-bounded literal fragment of any string (a raw
fragment starts with `(`, every literal fragment with `\`), so the marker
cannot be escaped at the public interface.  Concretely, `["re:^x$"]`
matches per the raw anchors: the text `"x"` is flagged while the literal
text `"re:^x$"` itself is not. -/
theorem raw_marker_unescapable (rest : List Char) :
    isRawToken ('r' :: 'e' :: ':' :: rest) = true
    ∧ tokenPart ('r' :: 'e' :: ':' :: rest) = '(' :: '?' :: ':' :: (rest ++ [')'])
    ∧ (∀ s : List Char,
        tokenPart ('r' :: 'e' :: ':' :: rest) ≠ '\\' :: 'b' :: (reEscape s ++ ['\\', 'b']))
    ∧ (∀ t s : List Char, tokenPart t = '\\' :: 'b' :: (reEscape s ++ ['\\', 'b']) →
        isRawToken t = false)
    ∧ is_bad_message (some (str "x")) (some [str "re:^x$"]) = .ok true
    ∧ is_bad_message (some (str "re:^x$")) (some [str "re:^x$"]) = .ok false := by
  refine ⟨rfl, rfl, ?_, ?_, rfl, rfl⟩
  · intro s h
    have h1 : ('(' :: '?' :: ':' :: (rest ++ [')']))
        = '\\' :: 'b' :: (reEscape s ++ ['\\', 'b']) := h
    have h2 : '(' = '\\' := (List.cons.inj h1).1
    exact absurd h2 (by decide)
  · intro t s h
    rcases (Bool.eq_false_or_eq_true (isRawToken t)).symm with hr | hr
    · exact hr
    · exfalso
      unfold tokenPart at h
      rw [if_pos hr] at h
      have h2 : '(' = '\\' := (List.cons.inj h).1
      exact absurd h2 (by decide)

theorem raw_marker_unescapable_witness :
    isRawToken (str "re:^x$") = true
    ∧ tokenPart (str "re:^x$") ≠ '\\' :: 'b' :: (reEscape (str "re:^x$") ++ ['\\', 'b']) :=
  ⟨(raw_marker_unescapable (str "^x$")).1,
   (raw_marker_unescapable (str "^x$")).2.2.1 (str "re:^x$")⟩
